import Mathlib

/-!
# Verification of the "龙头信仰" (Dragon Leader Faith) sentiment-record dashboard

This development gives a shallow embedding of the self-contained logic of the
two dashboard variants in this repository:

* `V275` — the v27.5 variant (`src/unnamed/part_000`)
* `V280` — the v28.0 variant (`src/index.tsx`)

and proves functional-correctness and invariant properties of

* the persistence frequency analyzer `persistentSectors`,
* the archive operation `handleSave`,
* the score-editing operations and the AI auto-fill merges,
* the loading-flag gating of the asynchronous AI operations, modelled as an
  event-step machine.

Modelling conventions:

* JavaScript numbers are IEEE-754 doubles; they are modelled as `ℚ`.  Every
  numeric operation verified here (comparison, `±5`, `Math.min`/`Math.max`
  clamping on `[0,100]`, integer counting) is exact on doubles in the ranges
  involved, so `ℚ` is a faithful model for these operations.
* JavaScript string truthiness (`filter(Boolean)`) holds exactly for nonempty
  strings.
* `String.prototype.trim` is modelled by `jsTrim`, which strips the common
  JavaScript whitespace code points from both ends.
* A plain JavaScript object used as a dictionary is modelled as an
  insertion-ordered association list; `Object.entries` enumeration order
  (canonical array-index keys first, in ascending numeric order, then the
  remaining string keys in insertion order) is modelled by `objectEntries`.
* `Array.prototype.sort` is guaranteed stable (ES2019).  A stable sort with
  respect to a total preorder has a unique result, so it is modelled by
  `List.insertionSort`, which is stable with the same orientation.
* `date` strings are ISO `YYYY-MM-DD`; on such ASCII strings
  `String.prototype.localeCompare` agrees with code-unit lexicographic
  comparison, modelled by `lexLe`.
-/

/-! ## JavaScript string primitives -/

/-- The whitespace code points stripped by `String.prototype.trim`
(the ASCII ones plus NBSP and the BOM; the exotic Unicode space separators are
not used by this application). -/
def isJsWhitespace (c : Char) : Bool :=
  c == ' ' || c == '\t' || c == '\n' || c == '\r' ||
  c == '\x0b' || c == '\x0c' || c == ' ' || c == '﻿'

/-- Model of `String.prototype.trim`. -/
def jsTrim (s : String) : String :=
  ⟨((s.data.dropWhile isJsWhitespace).reverse.dropWhile isJsWhitespace).reverse⟩

/-- Code-unit prefix test on character lists. -/
def startsWithChars : List Char → List Char → Bool
  | [], _ => true
  | _ :: _, [] => false
  | a :: s, b :: t => a == b && startsWithChars s t

/-- Code-unit lexicographic `≤` on character lists; agrees with
`localeCompare` on ASCII date strings. -/
def lexLe : List Char → List Char → Bool
  | [], _ => true
  | _ :: _, [] => false
  | a :: s, b :: t => if a == b then lexLe s t else decide (a.toNat < b.toNat)

/-- Lexicographic `≤` on strings (model of `localeCompare ≤ 0` for the ASCII
date strings used by the store). -/
def dateLe (a b : String) : Bool := lexLe a.data b.data

/-! ## JavaScript object key enumeration -/

/-- ASCII digit test. -/
def isAsciiDigit (c : Char) : Bool :=
  decide (48 ≤ c.toNat) && decide (c.toNat ≤ 57)

/-- Numeric value of a list of ASCII digit characters (most significant
first). -/
def digitsVal : List Char → Nat
  | [] => 0
  | c :: t => (c.toNat - 48) * 10 ^ t.length + digitsVal t

/-- Numeric value of a decimal string. -/
def decimalValue (s : String) : Nat := digitsVal s.data

/-- Whether a string is a canonical array-index property key in the sense of
the ECMAScript specification: a canonical decimal integer (no leading zeros)
whose value is below `2^32 - 1`.  Such keys are enumerated by
`Object.entries` before all other keys, in ascending numeric order. -/
def isArrayIndexKey (s : String) : Bool :=
  match s.data with
  | [] => false
  | c :: cs =>
    (c :: cs).all isAsciiDigit && (c != '0' || cs.isEmpty) &&
      decide (digitsVal (c :: cs) < 4294967295)

/-- One step of building the count dictionary:
`counts[name] = (counts[name] || 0) + 1` on a plain JavaScript object,
modelled on an insertion-ordered association list. -/
def bump (counts : List (String × Nat)) (name : String) : List (String × Nat) :=
  if counts.any (fun p => p.1 == name) then
    counts.map (fun p => if p.1 = name then (p.1, p.2 + 1) else p)
  else
    counts ++ [(name, 1)]

/-- The count dictionary built by `allSectors.forEach(name => ...)`. -/
def countsOf (l : List String) : List (String × Nat) := l.foldl bump []

/-- The sublist of first occurrences of a list (each element kept at the
position of its first occurrence). -/
def firstOccs {α : Type} [DecidableEq α] : List α → List α
  | [] => []
  | a :: l => a :: (firstOccs l).filter (fun b => b ≠ a)

/-- Model of `Object.entries` enumeration order on a plain object represented
by its insertion-ordered association list: canonical array-index keys first in
ascending numeric order, then the remaining keys in insertion order. -/
def objectEntries (c : List (String × Nat)) : List (String × Nat) :=
  (c.filter (fun p => isArrayIndexKey p.1)).insertionSort
      (fun p q => decimalValue p.1 ≤ decimalValue q.1)
    ++ c.filter (fun p => !isArrayIndexKey p.1)

/-- The tie-breaking order actually implemented for names of equal count: the
stable sort leaves equal-count entries in `Object.entries` enumeration order,
so a canonical array-index name precedes every other name, two array-index
names are ordered by ascending numeric value, and two ordinary names are
ordered by first occurrence in the concatenated name list `l`. -/
def jsTieBefore (l : List String) (a b : String) : Prop :=
  if isArrayIndexKey a then
    if isArrayIndexKey b then decimalValue a < decimalValue b else True
  else
    if isArrayIndexKey b then False else l.indexOf a < l.indexOf b

instance (l : List String) (a b : String) : Decidable (jsTieBefore l a b) := by
  unfold jsTieBefore
  infer_instance

instance : IsTotal (String × ℕ) (fun p q => q.2 ≤ p.2) :=
  ⟨fun a b => le_total b.2 a.2⟩

instance : IsTrans (String × ℕ) (fun p q => q.2 ≤ p.2) :=
  ⟨fun _ _ _ h1 h2 => le_trans h2 h1⟩

instance : IsTotal (String × ℕ) (fun p q => decimalValue p.1 ≤ decimalValue q.1) :=
  ⟨fun _ _ => le_total _ _⟩

instance : IsTrans (String × ℕ) (fun p q => decimalValue p.1 ≤ decimalValue q.1) :=
  ⟨fun _ _ _ => le_trans⟩

namespace V275

/-! ## Data model of the v27.5 variant (`src/unnamed/part_000`) -/

inductive Ma5Status : Type
  | above
  | below
deriving DecidableEq, Repr

structure IndexData : Type where
  name : String
  change : ℚ
  ma5Status : Ma5Status
deriving DecidableEq, Repr

structure SectorTrack : Type where
  name : String
  gain : ℚ
  limitUps : ℚ
  volume : ℚ
deriving DecidableEq, Repr

structure WatchStock : Type where
  name : String
  concept : String
  plan : String
deriving DecidableEq, Repr

structure GroundingSource : Type where
  title : String
  uri : String
deriving DecidableEq, Repr

structure LadderEntry : Type where
  count : ℚ
  stock : String
  concept : String
  promoRate : ℚ
deriving DecidableEq, Repr

inductive VolMA5 : Type
  | increasing
  | decreasing
deriving DecidableEq, Repr

inductive MainLine : Type
  | confirmed
  | rotating
  | random
deriving DecidableEq, Repr

inductive DragonStatus : Type
  | accelerate
  | divergence
  | broken
  | revive
deriving DecidableEq, Repr

structure MarketReview : Type where
  date : String
  indices : List IndexData
  totalVol : ℚ
  volDelta : ℚ
  volMA5 : VolMA5
  upCount : ℚ
  dnCount : ℚ
  topSectors : List SectorTrack
  isMainLine : MainLine
  ladder : List (String × LadderEntry)
  limitUpTotal : ℚ
  limitDownTotal : ℚ
  brokenRate : ℚ
  yesterdayGain : ℚ
  nuclearCount : ℚ
  dragon : String
  dragonStatus : DragonStatus
  midArmy : String
  watchlist : List WatchStock
  reflection : String
  score : ℚ
  stage : String
  aiAnalysis : String
  sources : List GroundingSource
  rawContext : Option String
deriving DecidableEq, Repr

/-- The zero-valued ladder entry used by `INITIAL_REVIEW`. -/
def emptyLadderEntry : LadderEntry :=
  { count := 0, stock := "", concept := "", promoRate := 0 }

/-- `INITIAL_REVIEW`; its `date` field is `new Date().toISOString()…`, the
current date at session start, so it is a parameter here. -/
def INITIAL_REVIEW (today : String) : MarketReview where
  date := today
  indices :=
    [ { name := "沪", change := 0, ma5Status := .above },
      { name := "深", change := 0, ma5Status := .above },
      { name := "创", change := 0, ma5Status := .above },
      { name := "科", change := 0, ma5Status := .above },
      { name := "300", change := 0, ma5Status := .above },
      { name := "1000", change := 0, ma5Status := .above },
      { name := "2000", change := 0, ma5Status := .above },
      { name := "微盘", change := 0, ma5Status := .above } ]
  totalVol := 0
  volDelta := 0
  volMA5 := .increasing
  upCount := 0
  dnCount := 0
  topSectors := List.replicate 3 { name := "", gain := 0, limitUps := 0, volume := 0 }
  isMainLine := .confirmed
  ladder :=
    [ ("5", emptyLadderEntry), ("4", emptyLadderEntry), ("3", emptyLadderEntry),
      ("2", emptyLadderEntry), ("1", emptyLadderEntry) ]
  limitUpTotal := 0
  limitDownTotal := 0
  brokenRate := 0
  yesterdayGain := 0
  nuclearCount := 0
  dragon := ""
  dragonStatus := .accelerate
  midArmy := ""
  watchlist := List.replicate 9 { name := "", concept := "", plan := "" }
  reflection := ""
  score := 50
  stage := "混沌期"
  aiAnalysis := ""
  sources := []
  rawContext := none

/-! ## Persistence frequency analyzer -/

/-- `topSectors.map(s => s.name.trim()).filter(Boolean)`. -/
def sectorNames (ts : List SectorTrack) : List String :=
  (ts.map (fun s => jsTrim s.name)).filter (fun n => n != "")

/-- The concatenation `[...currentSectors, ...historicalSectors]` built by
`persistentSectors` from the current record and `history.slice(0, 5)`. -/
def allSectors (review : MarketReview) (history : List MarketReview) : List String :=
  let last5 := history.take 5
  let currentSectors := sectorNames review.topSectors
  let historicalSectors := last5.flatMap (fun h => sectorNames h.topSectors)
  currentSectors ++ historicalSectors

/-- The persistence frequency analyzer: count every surviving sector name,
keep the names with count `≥ 2`, and sort descending by count
(`.sort((a, b) => b[1] - a[1])`, a stable sort). -/
def persistentSectors (review : MarketReview) (history : List MarketReview) :
    List (String × Nat) :=
  let counts := countsOf (allSectors review history)
  ((objectEntries counts).filter (fun p => decide (2 ≤ p.2))).insertionSort
    (fun p q => q.2 ≤ p.2)

/-! ## Saving -/

/-- `handleSave`: replace any record sharing the working record's date, put
the working record in front, and re-sort descending by date
(`.sort((a, b) => b.date.localeCompare(a.date))`, stable). -/
def handleSave (review : MarketReview) (history : List MarketReview) :
    List MarketReview :=
  (review :: history.filter (fun h => h.date != review.date)).insertionSort
    (fun a b => dateLe b.date a.date = true)

/-! ## Score adjustment buttons -/

/-- The `-5` button: `score: Math.max(0, review.score - 5)`. -/
def scoreMinus5 (r : MarketReview) : MarketReview :=
  { r with score := max 0 (r.score - 5) }

/-- The `+5` button: `score: Math.min(100, review.score + 5)`. -/
def scorePlus5 (r : MarketReview) : MarketReview :=
  { r with score := min 100 (r.score + 5) }

/-! ## AI auto-fill (`autoFillMarketData`) -/

/-- A per-level patch taken from the parsed response's `ladder` object; each
field is optional because `{...newLadder[lvl], ...data.ladder[lvl]}` merges
only the fields present. -/
structure LadderPatch : Type where
  count : Option ℚ
  stock : Option String
  concept : Option String
  promoRate : Option ℚ
deriving DecidableEq, Repr

/-- The optional `sentiment` object of the parsed response. -/
structure SentimentPatch : Type where
  limitUp : Option ℚ
  limitDown : Option ℚ
  brokenRate : Option ℚ
deriving DecidableEq, Repr

/-- The parsed JSON response consumed by `autoFillMarketData`.  A field is
`none` exactly when the corresponding key is absent from the parsed object
(`undefined` under optional chaining / `??`). -/
structure AIFillData : Type where
  indices : Option (List (String × ℚ))
  totalVol : Option ℚ
  volDelta : Option ℚ
  sentiment : Option SentimentPatch
  sectors : Option (List SectorTrack)
  dragon : Option String
  midArmy : Option String
  ladder : Option (List (String × LadderPatch))
deriving DecidableEq, Repr

/-- The parse of an empty or unrelated response (`JSON.parse("{}")`). -/
def emptyFill : AIFillData :=
  { indices := none, totalVol := none, volDelta := none, sentiment := none,
    sectors := none, dragon := none, midArmy := none, ladder := none }

/-- The `setReview` merge performed by `autoFillMarketData` on a successful
response (`src/unnamed/part_000`, lines 229–256).  `filesCount` is
`uploadedFiles.length`, interpolated into the success message. -/
def autoFillMerge (prev : MarketReview) (data : AIFillData) (filesCount : Nat) :
    MarketReview :=
  let newIndices := prev.indices.map (fun idx =>
    { idx with
      change := (data.indices.bind (fun m => List.lookup idx.name m)).getD idx.change
      ma5Status :=
        if 0 ≤ (data.indices.bind (fun m => List.lookup idx.name m)).getD 0 then
          Ma5Status.above
        else Ma5Status.below })
  let newSectors :=
    match data.sectors with
    | none => prev.topSectors
    | some arr => prev.topSectors.mapIdx (fun i s => (arr.get? i).getD s)
  let newLadder := prev.ladder.map (fun kv =>
    match data.ladder.bind (fun m => List.lookup kv.1 m) with
    | some p =>
      (kv.1,
        { count := p.count.getD kv.2.count, stock := p.stock.getD kv.2.stock,
          concept := p.concept.getD kv.2.concept,
          promoRate := p.promoRate.getD kv.2.promoRate })
    | none => kv)
  { prev with
    indices := newIndices
    totalVol := data.totalVol.getD prev.totalVol
    volDelta := data.volDelta.getD prev.volDelta
    limitUpTotal := (data.sentiment.bind (fun s => s.limitUp)).getD prev.limitUpTotal
    limitDownTotal := (data.sentiment.bind (fun s => s.limitDown)).getD prev.limitDownTotal
    brokenRate := (data.sentiment.bind (fun s => s.brokenRate)).getD prev.brokenRate
    topSectors := newSectors
    ladder := newLadder
    dragon := data.dragon.getD prev.dragon
    midArmy := data.midArmy.getD prev.midArmy
    aiAnalysis := "【解析成功】基于 " ++ toString filesCount ++ " 个原始信源提炼。已聚焦 1-5B+ 核心梯队。" }

/-! ## Event machine for the asynchronous AI operations (v27.5)

The UI is single-threaded and event-driven; the asynchronous network call is
modelled by splitting each AI operation into a dispatch event (the `onClick`
handler up to and including the `await`) and a `finish` event (resolution of
the promise: the `then`/`catch`/`finally` part).  `pending` is the list of
dispatched, unresolved AI calls. -/

inductive Op : Type
  | callAI
  | autoFill
deriving DecidableEq, Repr

structure AppState : Type where
  review : MarketReview
  history : List MarketReview
  isLoading : Bool
  statusMsg : String
  uploadedCount : Nat
  showFileManager : Bool
  alerts : List String
  pending : List Op
deriving DecidableEq, Repr

/-- Resolution of an in-flight AI call: the response text of `callAI`
(`response.text`, possibly `undefined`), the parsed fill data of
`autoFillMarketData`, or a failure (network error or JSON-parse error)
reaching the `catch` block. -/
inductive Completion : Type
  | callAIOk (text : Option String)
  | callAIFail
  | autoFillOk (data : AIFillData)
  | autoFillFail
deriving DecidableEq, Repr

/-- The operation a completion resolves. -/
def Completion.op : Completion → Op
  | .callAIOk _ => .callAI
  | .callAIFail => .callAI
  | .autoFillOk _ => .autoFill
  | .autoFillFail => .autoFill

/-- The effect of the `then`/`catch` part of each operation: `callAI` writes
`response.text || ""` into `aiAnalysis` on success and the fallback text
`"指挥官请求超时。"` on failure; `autoFillMarketData` applies the merge and
closes the file manager on success and raises a blocking alert on failure. -/
def applyCompletion (c : Completion) (s : AppState) : AppState :=
  match c with
  | .callAIOk text =>
    { s with review := { s.review with aiAnalysis := text.getD "" } }
  | .callAIFail =>
    { s with review := { s.review with aiAnalysis := "指挥官请求超时。" } }
  | .autoFillOk data =>
    { s with review := autoFillMerge s.review data s.uploadedCount,
             showFileManager := false }
  | .autoFillFail =>
    { s with alerts := s.alerts ++ ["AI 深度解析异常。"] }

inductive Event : Type
  | clickCallAI
  | clickAutoFill
  | clickSave
  | editReview (r : MarketReview)
  | addFiles (k : Nat)
  | removeOneFile
  | setManager (b : Bool)
  | finish (c : Completion)

/-- One UI event step.  The dispatch events mirror the guards of the source:
both `callAI` and `autoFillMarketData` begin with `if (isLoading) return;`,
and `autoFillMarketData` additionally alerts and returns when no files are
uploaded.  `editReview` models all synchronous `setReview` form handlers,
`clickSave` the archive button, `addFiles`/`removeOneFile` the file pool
(capped at 10 by `.slice(-10)`). -/
def step (e : Event) (s : AppState) : AppState :=
  match e with
  | .clickCallAI =>
    if s.isLoading then s
    else
      { s with isLoading := true,
               statusMsg := "正在调动 AI 指挥官进行全维度信仰研判...",
               pending := s.pending ++ [Op.callAI] }
  | .clickAutoFill =>
    if s.isLoading then s
    else if s.uploadedCount = 0 then
      { s with alerts := s.alerts ++ ["请先上传数据信源。"] }
    else
      { s with isLoading := true,
               statusMsg := "正在深度分析上传的 " ++ toString s.uploadedCount ++
                 " 个文件并合成市场数据...",
               pending := s.pending ++ [Op.autoFill] }
  | .clickSave =>
    { s with history := handleSave s.review s.history,
             alerts := s.alerts ++ [s.review.date ++ " 信仰记录已归档。"] }
  | .editReview r => { s with review := r }
  | .addFiles k => { s with uploadedCount := min (s.uploadedCount + k) 10 }
  | .removeOneFile => { s with uploadedCount := s.uploadedCount - 1 }
  | .setManager b => { s with showFileManager := b }
  | .finish c =>
    if c.op ∈ s.pending then
      applyCompletion c
        { s with isLoading := false, pending := s.pending.erase c.op }
    else s

/-- Whether an event is a dispatch (button trigger) of an AI operation. -/
def Event.isAiTrigger : Event → Prop
  | .clickCallAI => True
  | .clickAutoFill => True
  | _ => False

/-- The state at session start: `INITIAL_REVIEW`, the history loaded from
local storage by the mount effect, no in-flight call. -/
def initialState (today : String) (loaded : List MarketReview) : AppState :=
  { review := INITIAL_REVIEW today, history := loaded, isLoading := false,
    statusMsg := "", uploadedCount := 0, showFileManager := false,
    alerts := [], pending := [] }

/-- Reachability under the event machine. -/
inductive Reachable : AppState → Prop
  | init (today : String) (loaded : List MarketReview) :
      Reachable (initialState today loaded)
  | next (e : Event) {s : AppState} : Reachable s → Reachable (step e s)

end V275

/-! ## Stage extraction (v28.0 `analyzeSentimentCycle`)

Model of `res.match(/【周期结论】：(混沌期|活跃期|分化期|退潮期)/)?.[1] || "混沌期"`:
scan for the earliest occurrence of the marker followed by one of the four
alternatives (which are pairwise distinguished by their first character), and
default to `"混沌期"` when there is no match. -/

def stageMarker : String := "【周期结论】："

def stageWords : List String := ["混沌期", "活跃期", "分化期", "退潮期"]

/-- Try to match the stage pattern at the current position. -/
def matchStageAt (cs : List Char) : Option String :=
  if startsWithChars stageMarker.data cs then
    stageWords.find? (fun w => startsWithChars w.data (cs.drop stageMarker.data.length))
  else none

/-- Earliest match of the stage pattern. -/
def findStageMatch : List Char → Option String
  | [] => none
  | c :: cs =>
    match matchStageAt (c :: cs) with
    | some w => some w
    | none => findStageMatch cs

/-- The stage label extracted from the response text. -/
def extractStage (res : String) : String := (findStageMatch res.data).getD "混沌期"

namespace V280

/-! ## Data model of the v28.0 variant (`src/index.tsx`)

The persistence frequency analyzer and the shape of `handleSave` are textually
identical to the v27.5 variant and are verified once, on `V275`; this
namespace models the parts specific to v28.0: the record type, the spread
merge of `autoFillMarketData`, the score slider, and the three asynchronous
AI operations. -/

inductive Ma5Status : Type
  | above
  | below
deriving DecidableEq, Repr

structure IndexData : Type where
  name : String
  value : ℚ
  change : ℚ
  ma5Status : Ma5Status
deriving DecidableEq, Repr

structure SectorTrack : Type where
  name : String
  gain : ℚ
  limitUps : ℚ
  volume : ℚ
deriving DecidableEq, Repr

structure WatchStock : Type where
  name : String
  concept : String
  plan : String
deriving DecidableEq, Repr

structure LadderEntry : Type where
  count : ℚ
  stock : String
  concept : String
  promoRate : ℚ
deriving DecidableEq, Repr

inductive DragonStatus : Type
  | accelerate
  | divergence
  | broken
  | revive
deriving DecidableEq, Repr

structure MarketReview : Type where
  date : String
  indices : List IndexData
  totalVol : ℚ
  volDelta : ℚ
  limitUpTotal : ℚ
  limitDownTotal : ℚ
  brokenRate : ℚ
  topSectors : List SectorTrack
  ladder : List (String × LadderEntry)
  dragon : String
  dragonStatus : DragonStatus
  midArmy : String
  watchlist : List WatchStock
  score : ℚ
  stage : String
  aiAnalysis : String
  customKeywords : String
deriving DecidableEq, Repr

def emptyLadderEntry : LadderEntry :=
  { count := 0, stock := "", concept := "", promoRate := 0 }

/-- `INITIAL_REVIEW` of the v28.0 variant. -/
def INITIAL_REVIEW (today : String) : MarketReview where
  date := today
  indices :=
    [ { name := "上证", value := 0, change := 0, ma5Status := .above },
      { name := "深成", value := 0, change := 0, ma5Status := .above },
      { name := "创业", value := 0, change := 0, ma5Status := .above },
      { name := "科创", value := 0, change := 0, ma5Status := .above },
      { name := "沪深300", value := 0, change := 0, ma5Status := .above },
      { name := "中证1000", value := 0, change := 0, ma5Status := .above },
      { name := "中证2000", value := 0, change := 0, ma5Status := .above },
      { name := "微盘股", value := 0, change := 0, ma5Status := .above } ]
  totalVol := 0
  volDelta := 0
  limitUpTotal := 0
  limitDownTotal := 0
  brokenRate := 0
  topSectors :=
    [ { name := "", gain := 0, limitUps := 0, volume := 0 },
      { name := "", gain := 0, limitUps := 0, volume := 0 },
      { name := "", gain := 0, limitUps := 0, volume := 0 } ]
  ladder :=
    [ ("5", emptyLadderEntry), ("4", emptyLadderEntry), ("3", emptyLadderEntry),
      ("2", emptyLadderEntry), ("1", emptyLadderEntry) ]
  dragon := ""
  dragonStatus := .accelerate
  midArmy := ""
  watchlist := List.replicate 6 { name := "", concept := "", plan := "" }
  score := 50
  stage := "待研判"
  aiAnalysis := ""
  customKeywords := ""

/-- The parsed JSON response consumed by the v28.0 `autoFillMarketData`,
whose merge is the plain object spread `{...prev, ...data, aiAnalysis: …}`:
any key present in the parsed object overwrites the record field wholesale.
A field is `none` exactly when the key is absent from the parsed object. -/
structure AIFillData : Type where
  date : Option String
  indices : Option (List IndexData)
  totalVol : Option ℚ
  volDelta : Option ℚ
  limitUpTotal : Option ℚ
  limitDownTotal : Option ℚ
  brokenRate : Option ℚ
  topSectors : Option (List SectorTrack)
  ladder : Option (List (String × LadderEntry))
  dragon : Option String
  dragonStatus : Option DragonStatus
  midArmy : Option String
  watchlist : Option (List WatchStock)
  score : Option ℚ
  stage : Option String
  aiAnalysis : Option String
  customKeywords : Option String
deriving DecidableEq, Repr

/-- The parse of an empty response (`JSON.parse("{}")`). -/
def emptyFill : AIFillData :=
  { date := none, indices := none, totalVol := none, volDelta := none,
    limitUpTotal := none, limitDownTotal := none, brokenRate := none,
    topSectors := none, ladder := none, dragon := none, dragonStatus := none,
    midArmy := none, watchlist := none, score := none, stage := none,
    aiAnalysis := none, customKeywords := none }

/-- The `setReview` merge of the v28.0 `autoFillMarketData`
(`src/index.tsx`, line 167): `{...prev, ...data, aiAnalysis: "信源同步完成。…"}`.
No clamping or validation is applied to the copied values. -/
def autoFillMerge (prev : MarketReview) (data : AIFillData) : MarketReview where
  date := data.date.getD prev.date
  indices := data.indices.getD prev.indices
  totalVol := data.totalVol.getD prev.totalVol
  volDelta := data.volDelta.getD prev.volDelta
  limitUpTotal := data.limitUpTotal.getD prev.limitUpTotal
  limitDownTotal := data.limitDownTotal.getD prev.limitDownTotal
  brokenRate := data.brokenRate.getD prev.brokenRate
  topSectors := data.topSectors.getD prev.topSectors
  ladder := data.ladder.getD prev.ladder
  dragon := data.dragon.getD prev.dragon
  dragonStatus := data.dragonStatus.getD prev.dragonStatus
  midArmy := data.midArmy.getD prev.midArmy
  watchlist := data.watchlist.getD prev.watchlist
  score := data.score.getD prev.score
  stage := data.stage.getD prev.stage
  aiAnalysis := "信源同步完成。建议立即进行周期定性分析。"
  customKeywords := data.customKeywords.getD prev.customKeywords

/-- The score slider (`src/index.tsx`, line 518):
`<input type="range" min="0" max="100" … onChange={e => setReview({...review, score: +e.target.value})}>`.
The DOM constrains the emitted value to `[0, 100]`. -/
def setScoreSlider (r : MarketReview) (v : ℚ) : MarketReview :=
  { r with score := v }

/-- `handleSave` of the v28.0 variant (same computation as in v27.5). -/
def handleSave (review : MarketReview) (history : List MarketReview) :
    List MarketReview :=
  (review :: history.filter (fun h => h.date != review.date)).insertionSort
    (fun a b => dateLe b.date a.date = true)

/-! ## Event machine for the three asynchronous AI operations (v28.0) -/

inductive Op : Type
  | callAI
  | analyze
  | autoFill
deriving DecidableEq, Repr

structure AppState : Type where
  review : MarketReview
  history : List MarketReview
  isLoading : Bool
  statusMsg : String
  uploadedCount : Nat
  showFileManager : Bool
  alerts : List String
  pending : List Op
deriving DecidableEq, Repr

/-- Resolution of an in-flight AI call. -/
inductive Completion : Type
  | callAIOk (text : Option String)
  | callAIFail
  | analyzeOk (text : Option String)
  | analyzeFail
  | autoFillOk (data : AIFillData)
  | autoFillFail
deriving DecidableEq, Repr

def Completion.op : Completion → Op
  | .callAIOk _ => .callAI
  | .callAIFail => .callAI
  | .analyzeOk _ => .analyze
  | .analyzeFail => .analyze
  | .autoFillOk _ => .autoFill
  | .autoFillFail => .autoFill

/-- The `then`/`catch` effect of each operation: every failure raises a
blocking alert (`"自动填充失败"`, `"周期研判异常"`, `"策略生成异常"`); the
successes write the response into the record
(`analyzeSentimentCycle` extracts the stage label and prepends the analysis). -/
def applyCompletion (c : Completion) (s : AppState) : AppState :=
  match c with
  | .callAIOk text =>
    { s with review := { s.review with aiAnalysis := text.getD "" } }
  | .callAIFail => { s with alerts := s.alerts ++ ["策略生成异常"] }
  | .analyzeOk text =>
    { s with review :=
        { s.review with
          stage := extractStage (text.getD "")
          aiAnalysis := "【周期研判结论】: " ++ text.getD "" ++ "\n\n" ++
            s.review.aiAnalysis } }
  | .analyzeFail => { s with alerts := s.alerts ++ ["周期研判异常"] }
  | .autoFillOk data =>
    { s with review := autoFillMerge s.review data, showFileManager := false }
  | .autoFillFail => { s with alerts := s.alerts ++ ["自动填充失败"] }

inductive Event : Type
  | clickCallAI
  | clickAnalyze
  | clickAutoFill
  | clickSave
  | editReview (r : MarketReview)
  | addFiles (k : Nat)
  | removeOneFile
  | setManager (b : Bool)
  | finish (c : Completion)

/-- One UI event step.  All three AI operations begin with
`if (isLoading) return;` (the auto-fill additionally requires uploaded
files: `if (isLoading || uploadedFiles.length === 0) return;`). -/
def step (e : Event) (s : AppState) : AppState :=
  match e with
  | .clickCallAI =>
    if s.isLoading then s
    else
      { s with isLoading := true, statusMsg := "AI指挥官生成实战策略中...",
               pending := s.pending ++ [Op.callAI] }
  | .clickAnalyze =>
    if s.isLoading then s
    else
      { s with isLoading := true, statusMsg := "正在研判情绪周期阶段...",
               pending := s.pending ++ [Op.analyze] }
  | .clickAutoFill =>
    if s.isLoading || s.uploadedCount == 0 then s
    else
      { s with isLoading := true, statusMsg := "正在通过AI解构原始信源数据...",
               pending := s.pending ++ [Op.autoFill] }
  | .clickSave =>
    { s with history := handleSave s.review s.history,
             alerts := s.alerts ++ ["今日复盘已成功归档至信仰库。"] }
  | .editReview r => { s with review := r }
  | .addFiles k => { s with uploadedCount := min (s.uploadedCount + k) 10 }
  | .removeOneFile => { s with uploadedCount := s.uploadedCount - 1 }
  | .setManager b => { s with showFileManager := b }
  | .finish c =>
    if c.op ∈ s.pending then
      applyCompletion c
        { s with isLoading := false, pending := s.pending.erase c.op }
    else s

/-- Whether an event is a dispatch (button trigger) of one of the three AI
operations. -/
def Event.isAiTrigger : Event → Prop
  | .clickCallAI => True
  | .clickAnalyze => True
  | .clickAutoFill => True
  | _ => False

def initialState (today : String) (loaded : List MarketReview) : AppState :=
  { review := INITIAL_REVIEW today, history := loaded, isLoading := false,
    statusMsg := "", uploadedCount := 0, showFileManager := false,
    alerts := [], pending := [] }

inductive Reachable : AppState → Prop
  | init (today : String) (loaded : List MarketReview) :
      Reachable (initialState today loaded)
  | next (e : Event) {s : AppState} : Reachable s → Reachable (step e s)

end V280

namespace SpecModel

/-! ## Score classifier (spec §4.2) -/

/-- The categorical `trend` input; only the "v-shaped reversal" and
"cliff drop" values trigger adjustments. -/
inductive Trend : Type
  | vReversal
  | cliffDrop
  | otherTrend
deriving DecidableEq, Repr

/-- Modelled from the spec: the Score/Stage Classifier of §4.2 is contained
in a third variant of the dashboard that is not present under `src/` (in the
two variants present, `score` is a directly user-set value).  Per the spec:
start at baseline 50 and apply a fixed list of independent additive
adjustments, each gated by a threshold predicate on exactly one input field
(+20 if trend is "v-shaped reversal", −25 if trend is "cliff drop",
+15 if yesterdayGain > 5, −20 if yesterdayGain < −2, −15 if nuclearCount > 10,
+10 if limitUpCount > 80, −10 if limitUpCount < 20, −20 if limitDownCount > 15,
+10 if promotionRate > 50), then clamp the result to [0, 100].  The stage
label, a pure function of the clamped score and the sign of `yesterdayGain`,
is not needed for the claims verified here. -/
def calculateScore (trend : Trend) (yesterdayGain : ℚ)
    (nuclearCount limitUpCount limitDownCount : ℤ) (promotionRate : ℚ) : ℤ :=
  let s : ℤ := 50 +
    (if trend = .vReversal then 20 else 0) +
    (if trend = .cliffDrop then -25 else 0) +
    (if 5 < yesterdayGain then 15 else 0) +
    (if yesterdayGain < -2 then -20 else 0) +
    (if 10 < nuclearCount then -15 else 0) +
    (if 80 < limitUpCount then 10 else 0) +
    (if limitUpCount < 20 then -10 else 0) +
    (if 15 < limitDownCount then -20 else 0) +
    (if 50 < promotionRate then 10 else 0)
  min 100 (max 0 s)

end SpecModel

/-! ## Concrete inputs for counterexamples and witnesses -/

namespace V275

/-- A sector row holding only a name (the numeric fields are irrelevant to
the analyzer). -/
def mkSector (n : String) : SectorTrack :=
  { name := n, gain := 0, limitUps := 0, volume := 0 }

/-- A current record whose `topSectors` lists the same non-empty name twice. -/
def reviewDupAI : MarketReview :=
  { INITIAL_REVIEW "2026-01-02" with
    topSectors := [mkSector "AI", mkSector "AI", mkSector ""] }

/-- A current record naming the sectors `"AI"` and `"2"`. -/
def reviewAI2 : MarketReview :=
  { INITIAL_REVIEW "2026-01-02" with
    topSectors := [mkSector "AI", mkSector "2", mkSector ""] }

/-- A stored record naming the sectors `"AI"` and `"2"`. -/
def histAI2 : MarketReview :=
  { INITIAL_REVIEW "2026-01-01" with
    topSectors := [mkSector "AI", mkSector "2", mkSector ""] }

/-- A record holding an index that sits below its 5-day moving average. -/
def reviewBelow : MarketReview :=
  { INITIAL_REVIEW "2026-01-02" with
    indices := [{ name := "沪", change := -1, ma5Status := .below }] }

end V275

namespace V280

/-- A parsed AI response containing only an out-of-range `score` field. -/
def fill150 : AIFillData := { emptyFill with score := some 150 }

end V280

/-! ## Properties of the count dictionary -/

theorem mem_firstOccs {α : Type} [DecidableEq α] {a : α} :
    ∀ {l : List α}, a ∈ firstOccs l ↔ a ∈ l
  | [] => Iff.rfl
  | b :: t => by
    simp only [firstOccs, List.mem_cons, List.mem_filter, decide_eq_true_eq]
    by_cases h : a = b
    · simp [h]
    · simp [h, mem_firstOccs (l := t)]

theorem firstOccs_nodup {α : Type} [DecidableEq α] :
    ∀ (l : List α), (firstOccs l).Nodup
  | [] => List.nodup_nil
  | a :: t => by
    simp only [firstOccs, List.nodup_cons]
    refine ⟨fun h => ?_, (firstOccs_nodup t).filter _⟩
    have := (List.mem_filter.mp h).2
    simp at this

theorem firstOccs_append {α : Type} [DecidableEq α] (n : α) :
    ∀ (l : List α),
      firstOccs (l ++ [n]) = if n ∈ l then firstOccs l else firstOccs l ++ [n]
  | [] => by simp [firstOccs]
  | a :: t => by
    simp only [List.cons_append, firstOccs, List.append_eq]
    rw [firstOccs_append n t]
    by_cases hnt : n ∈ t
    · rw [if_pos hnt, if_pos (List.mem_cons.mpr (Or.inr hnt))]
    · by_cases hna : n = a
      · subst hna
        rw [if_neg hnt, if_pos (List.mem_cons.mpr (Or.inl rfl)), List.filter_append]
        simp
      · rw [if_neg hnt, if_neg (by simp only [List.mem_cons, hnt, or_false]; exact hna),
          List.filter_append]
        simp [hna]

theorem countsOf_append (l : List String) (n : String) :
    countsOf (l ++ [n]) = bump (countsOf l) n := by
  simp [countsOf, List.foldl_append]

theorem countsOf_eq_map (l : List String) :
    countsOf l = (firstOccs l).map (fun n => (n, l.count n)) := by
  induction l using List.reverseRecOn with
  | nil => rfl
  | append_singleton l n ih =>
    rw [countsOf_append, ih, firstOccs_append, bump]
    by_cases h : n ∈ l
    · have hany : ((firstOccs l).map fun m => (m, l.count m)).any
          (fun p => p.1 == n) = true := by
        simp only [List.any_eq_true]
        exact ⟨(n, l.count n), List.mem_map.mpr ⟨n, mem_firstOccs.mpr h, rfl⟩,
          by simp⟩
      rw [if_pos hany, if_pos h, List.map_map]
      refine List.map_congr_left fun m hm => ?_
      simp only [Function.comp]
      by_cases hmn : m = n
      · subst hmn
        simp [List.count_append, List.count_singleton]
      · simp [hmn, List.count_append, List.count_singleton, Ne.symm hmn]
    · have hany : ((firstOccs l).map fun m => (m, l.count m)).any
          (fun p => p.1 == n) = false := by
        simp only [List.any_eq_false]
        intro p hp
        obtain ⟨m, hm, rfl⟩ := List.mem_map.mp hp
        simp only [beq_iff_eq]
        intro hmn
        exact h (hmn ▸ mem_firstOccs.mp hm)
      rw [if_neg (by simp [hany]), if_neg h, List.map_append]
      congr 1
      · refine List.map_congr_left fun m hm => ?_
        have hm' : m ∈ l := mem_firstOccs.mp hm
        have hmn : m ≠ n := fun e => h (e ▸ hm')
        simp [List.count_append, List.count_singleton, hmn, Ne.symm hmn]
      · simp [List.count_append, List.count_eq_zero.mpr h]

theorem mem_countsOf {l : List String} {a : String} {k : Nat} :
    (a, k) ∈ countsOf l ↔ a ∈ l ∧ k = l.count a := by
  rw [countsOf_eq_map]
  simp only [List.mem_map, Prod.mk.injEq]
  constructor
  · rintro ⟨m, hm, rfl, rfl⟩
    exact ⟨mem_firstOccs.mp hm, rfl⟩
  · rintro ⟨ha, rfl⟩
    exact ⟨a, mem_firstOccs.mpr ha, rfl, rfl⟩

theorem countsOf_keys (l : List String) :
    (countsOf l).map Prod.fst = firstOccs l := by
  rw [countsOf_eq_map, List.map_map]
  exact (List.map_congr_left fun a _ => rfl).trans (List.map_id _)

theorem countsOf_keys_nodup (l : List String) :
    ((countsOf l).map Prod.fst).Nodup := by
  rw [countsOf_keys]; exact firstOccs_nodup l

theorem objectEntries_perm (c : List (String × Nat)) :
    List.Perm (objectEntries c) c := by
  unfold objectEntries
  refine List.Perm.trans (List.Perm.append_right _ (List.perm_insertionSort _ _)) ?_
  exact List.filter_append_perm _ c

/-! ## Relative order of two elements of a list, as a two-element sublist -/

theorem pair_sublist_total {α : Type} {a b : α} :
    ∀ {l : List α}, a ∈ l → b ∈ l → a ≠ b →
      [a, b].Sublist l ∨ [b, a].Sublist l := by
  intro l
  induction l with
  | nil => intro h; exact absurd h (List.not_mem_nil a)
  | cons c t ih =>
    intro ha hb hne
    by_cases hac : a = c
    · subst hac
      have hbt : b ∈ t := by
        rcases List.mem_cons.mp hb with h | h
        · exact absurd h.symm hne
        · exact h
      exact Or.inl (List.Sublist.cons₂ _ (List.singleton_sublist.mpr hbt))
    · by_cases hbc : b = c
      · subst hbc
        have hat : a ∈ t := by
          rcases List.mem_cons.mp ha with h | h
          · exact absurd h hac
          · exact h
        exact Or.inr (List.Sublist.cons₂ _ (List.singleton_sublist.mpr hat))
      · have hat : a ∈ t := by
          rcases List.mem_cons.mp ha with h | h
          exacts [absurd h hac, h]
        have hbt : b ∈ t := by
          rcases List.mem_cons.mp hb with h | h
          exacts [absurd h hbc, h]
        exact (ih hat hbt hne).imp (List.Sublist.cons _) (List.Sublist.cons _)

theorem pair_sublist_antisymm {α : Type} {a b : α} (hne : a ≠ b) :
    ∀ {l : List α}, l.Nodup → [a, b].Sublist l → [b, a].Sublist l → False := by
  intro l
  induction l with
  | nil => intro _ h _; exact (List.cons_ne_nil a [b]) (List.sublist_nil.mp h)
  | cons c t ih =>
    intro hnd h1 h2
    cases h1 with
    | cons _ h1' =>
      cases h2 with
      | cons _ h2' => exact ih (List.nodup_cons.mp hnd).2 h1' h2'
      | cons₂ _ h2' =>
        exact (List.nodup_cons.mp hnd).1 (h1'.subset (by simp))
    | cons₂ _ h1' =>
      cases h2 with
      | cons _ h2' =>
        exact (List.nodup_cons.mp hnd).1 (h2'.subset (by simp))
      | cons₂ _ h2' => exact hne rfl

/-- If `a` occurs strictly before `b` in `l`, then `a` precedes `b` in the
list of first occurrences. -/
theorem pair_sublist_firstOccs {α : Type} [DecidableEq α] {a b : α} :
    ∀ {l : List α}, a ∈ l → b ∈ l → a ≠ b → l.indexOf a < l.indexOf b →
      [a, b].Sublist (firstOccs l) := by
  intro l
  induction l with
  | nil => intro h; exact absurd h (List.not_mem_nil a)
  | cons c t ih =>
    intro ha hb hne hidx
    by_cases hca : c = a
    · subst hca
      have hbt : b ∈ t := by
        rcases List.mem_cons.mp hb with h | h
        · exact absurd h.symm hne
        · exact h
      refine List.Sublist.cons₂ _ (List.singleton_sublist.mpr ?_)
      exact List.mem_filter.mpr ⟨mem_firstOccs.mpr hbt, by simp [Ne.symm hne]⟩
    · by_cases hcb : c = b
      · subst hcb
        rw [List.indexOf_cons_self] at hidx
        exact absurd hidx (Nat.not_lt_zero _)
      · have hat : a ∈ t := by
          rcases List.mem_cons.mp ha with h | h
          exacts [absurd h.symm hca, h]
        have hbt : b ∈ t := by
          rcases List.mem_cons.mp hb with h | h
          exacts [absurd h.symm hcb, h]
        rw [List.indexOf_cons_ne _ hca, List.indexOf_cons_ne _ hcb,
          Nat.succ_lt_succ_iff] at hidx
        have hsub := (ih hat hbt hne hidx).filter (fun x => decide (x ≠ c))
        rw [show List.filter (fun x => decide (x ≠ c)) [a, b] = [a, b] by
          simp [Ne.symm hca, Ne.symm hcb]] at hsub
        exact List.Sublist.cons _ hsub

/-! ## Injectivity of the numeric value on canonical array-index keys -/

theorem char_toNat_inj {c d : Char} (h : c.toNat = d.toNat) : c = d := by
  apply Char.eq_of_val_eq
  apply UInt32.eq_of_val_eq
  exact Fin.ext h

theorem digitsVal_lt (l : List Char) (h : ∀ c ∈ l, isAsciiDigit c = true) :
    digitsVal l < 10 ^ l.length := by
  induction l with
  | nil => simp [digitsVal]
  | cons c t ih =>
    have hc : c.toNat - 48 ≤ 9 := by
      have := h c (List.mem_cons_self c t)
      simp only [isAsciiDigit, Bool.and_eq_true, decide_eq_true_eq] at this
      omega
    have ht := ih (fun x hx => h x (List.mem_cons_of_mem c hx))
    have h1 : (c.toNat - 48) * 10 ^ t.length ≤ 9 * 10 ^ t.length :=
      Nat.mul_le_mul_right _ hc
    simp only [digitsVal, List.length_cons, pow_succ]
    omega

theorem digitsVal_head_ge (c : Char) (t : List Char)
    (hc : isAsciiDigit c = true) (hne : c ≠ '0') :
    10 ^ t.length ≤ digitsVal (c :: t) := by
  have hb : 48 ≤ c.toNat ∧ c.toNat ≤ 57 := by
    simpa [isAsciiDigit, Bool.and_eq_true, decide_eq_true_eq] using hc
  have h48 : c.toNat ≠ 48 := by
    intro h
    exact hne (char_toNat_inj (h.trans rfl))
  have h1 : 1 ≤ c.toNat - 48 := by omega
  calc 10 ^ t.length = 1 * 10 ^ t.length := (one_mul _).symm
    _ ≤ (c.toNat - 48) * 10 ^ t.length := Nat.mul_le_mul_right _ h1
    _ ≤ digitsVal (c :: t) := Nat.le_add_right _ _

theorem digitsVal_inj : ∀ {l1 l2 : List Char}, l1.length = l2.length →
    (∀ c ∈ l1, isAsciiDigit c = true) → (∀ c ∈ l2, isAsciiDigit c = true) →
    digitsVal l1 = digitsVal l2 → l1 = l2
  | [], [], _, _, _, _ => rfl
  | [], _ :: _, hlen, _, _, _ => by simp at hlen
  | _ :: _, [], hlen, _, _, _ => by simp at hlen
  | c1 :: t1, c2 :: t2, hlen, h1, h2, hv => by
    have hlt : t1.length = t2.length := by simpa using hlen
    have hv1 := digitsVal_lt t1 (fun x hx => h1 x (List.mem_cons_of_mem _ hx))
    have hv2 := digitsVal_lt t2 (fun x hx => h2 x (List.mem_cons_of_mem _ hx))
    rw [hlt] at hv1
    simp only [digitsVal, hlt] at hv
    have hd : c1.toNat - 48 = c2.toNat - 48 := by
      rcases Nat.lt_trichotomy (c1.toNat - 48) (c2.toNat - 48) with h | h | h
      · exfalso
        have hlt2 : (c1.toNat - 48) * 10 ^ t2.length + digitsVal t1 <
            (c2.toNat - 48) * 10 ^ t2.length + digitsVal t2 := by
          calc (c1.toNat - 48) * 10 ^ t2.length + digitsVal t1 <
              (c1.toNat - 48) * 10 ^ t2.length + 10 ^ t2.length := by omega
            _ = (c1.toNat - 48 + 1) * 10 ^ t2.length := by ring
            _ ≤ (c2.toNat - 48) * 10 ^ t2.length := Nat.mul_le_mul_right _ (by omega)
            _ ≤ _ := Nat.le_add_right _ _
        omega
      · exact h
      · exfalso
        have hlt2 : (c2.toNat - 48) * 10 ^ t2.length + digitsVal t2 <
            (c1.toNat - 48) * 10 ^ t2.length + digitsVal t1 := by
          calc (c2.toNat - 48) * 10 ^ t2.length + digitsVal t2 <
              (c2.toNat - 48) * 10 ^ t2.length + 10 ^ t2.length := by omega
            _ = (c2.toNat - 48 + 1) * 10 ^ t2.length := by ring
            _ ≤ (c1.toNat - 48) * 10 ^ t2.length := Nat.mul_le_mul_right _ (by omega)
            _ ≤ _ := Nat.le_add_right _ _
        omega
    have hb1 : 48 ≤ c1.toNat := by
      have := h1 c1 (List.mem_cons_self _ _)
      simp only [isAsciiDigit, Bool.and_eq_true, decide_eq_true_eq] at this
      exact this.1
    have hb2 : 48 ≤ c2.toNat := by
      have := h2 c2 (List.mem_cons_self _ _)
      simp only [isAsciiDigit, Bool.and_eq_true, decide_eq_true_eq] at this
      exact this.1
    have hchar : c1 = c2 := char_toNat_inj (by omega)
    have hvt : digitsVal t1 = digitsVal t2 := by
      rw [hd] at hv
      omega
    have htail := digitsVal_inj hlt (fun x hx => h1 x (List.mem_cons_of_mem _ hx))
      (fun x hx => h2 x (List.mem_cons_of_mem _ hx)) hvt
    rw [hchar, htail]

theorem digitsVal_lt_of_shorter {c1 c2 : Char} {t1 t2 : List Char}
    (hlen : t1.length < t2.length)
    (h1 : ∀ c ∈ c1 :: t1, isAsciiDigit c = true)
    (hc2d : isAsciiDigit c2 = true) (hc2 : c2 ≠ '0') :
    digitsVal (c1 :: t1) < digitsVal (c2 :: t2) := by
  have hlt := digitsVal_lt (c1 :: t1) h1
  have hge := digitsVal_head_ge c2 t2 hc2d hc2
  have hpow : 10 ^ (t1.length + 1) ≤ 10 ^ t2.length :=
    Nat.pow_le_pow_right (by norm_num) (by omega)
  calc digitsVal (c1 :: t1) < 10 ^ (t1.length + 1) := by simpa using hlt
    _ ≤ 10 ^ t2.length := hpow
    _ ≤ digitsVal (c2 :: t2) := hge

/-- Two distinct canonical array-index keys have distinct numeric values. -/
theorem decimalValue_inj {a b : String} (ha : isArrayIndexKey a = true)
    (hb : isArrayIndexKey b = true) (h : decimalValue a = decimalValue b) :
    a = b := by
  cases a with
  | mk da =>
    cases b with
    | mk db =>
      refine congrArg String.mk ?_
      cases da with
      | nil => exact absurd ha (by simp [isArrayIndexKey])
      | cons c1 t1 =>
        cases db with
        | nil => exact absurd hb (by simp [isArrayIndexKey])
        | cons c2 t2 =>
          simp only [isArrayIndexKey, Bool.and_eq_true, decide_eq_true_eq,
            List.all_eq_true, Bool.or_eq_true, bne_iff_ne, ne_eq,
            List.isEmpty_iff] at ha hb
          have hv : digitsVal (c1 :: t1) = digitsVal (c2 :: t2) := h
          rcases Nat.lt_trichotomy t1.length t2.length with hl | hl | hl
          · exfalso
            have ht2 : t2 ≠ [] := by
              intro e
              rw [e] at hl
              simp at hl
            have hc2 : c2 ≠ '0' := by
              rcases hb.1.2 with h' | h'
              · exact h'
              · exact absurd h' ht2
            exact absurd hv
              (Nat.ne_of_lt (digitsVal_lt_of_shorter hl ha.1.1 (hb.1.1 c2 (by simp)) hc2))
          · exact digitsVal_inj (by simp [hl]) ha.1.1 hb.1.1 hv
          · exfalso
            have ht1 : t1 ≠ [] := by
              intro e
              rw [e] at hl
              simp at hl
            have hc1 : c1 ≠ '0' := by
              rcases ha.1.2 with h' | h'
              · exact h'
              · exact absurd h' ht1
            exact absurd hv.symm
              (Nat.ne_of_lt (digitsVal_lt_of_shorter hl hb.1.1 (ha.1.1 c1 (by simp)) hc1))

/-! ## Claims about the persistence frequency analyzer -/

/-- C1: for every current record and every store, a sector name appears in
the output of `persistentSectors` if and only if its total occurrence count
across the current record's trimmed non-empty `topSectors` names plus the
trimmed non-empty `topSectors` names of the 5 most recent stored records
(`history.slice(0, 5)`; the store is maintained sorted by date descending by
`handleSave`, so these are the 5 most recent) is at least 2. -/
theorem persistentSectors_mem_iff_count_ge_two (review : V275.MarketReview)
    (history : List V275.MarketReview) (name : String) :
    name ∈ (V275.persistentSectors review history).map Prod.fst ↔
      2 ≤ (V275.allSectors review history).count name := by
  simp only [V275.persistentSectors]
  constructor
  · intro h
    obtain ⟨⟨a, k⟩, hp, rfl⟩ := List.mem_map.mp h
    have hp' := (List.mem_insertionSort _).mp hp
    have hf := List.mem_filter.mp hp'
    have hmem := (objectEntries_perm _).mem_iff.mp hf.1
    have hk := mem_countsOf.mp hmem
    have h2 : 2 ≤ k := by simpa using hf.2
    exact hk.2 ▸ h2
  · intro h2
    have hmem : name ∈ V275.allSectors review history :=
      List.count_pos_iff.mp (lt_of_lt_of_le (by norm_num) h2)
    refine List.mem_map.mpr
      ⟨(name, (V275.allSectors review history).count name), ?_, rfl⟩
    refine (List.mem_insertionSort _).mpr (List.mem_filter.mpr ⟨?_, by simpa using h2⟩)
    exact (objectEntries_perm _).mem_iff.mpr (mem_countsOf.mpr ⟨hmem, rfl⟩)

/-- C2 counterexample: with an empty store, a current record whose
`topSectors` lists the same non-empty name (`"AI"`) twice produces the
non-empty output `[("AI", 2)]`, because `persistentSectors` counts every
occurrence in the current record's own list. -/
theorem persistentSectors_empty_store_counterexample :
    V275.persistentSectors V275.reviewDupAI [] = [("AI", 2)] ∧
      V275.persistentSectors V275.reviewDupAI [] ≠ [] := by
  refine ⟨by decide, by decide⟩

/-- C2 (amended): if the store is empty, then for every current record whose
trimmed non-empty `topSectors` names are pairwise distinct the analyzer's
output is the empty sequence (a name repeated within the current record's own
list already reaches count 2 and is emitted, as the counterexample shows). -/
theorem persistentSectors_empty_store (review : V275.MarketReview)
    (h : (V275.sectorNames review.topSectors).Nodup) :
    V275.persistentSectors review [] = [] := by
  have hall : V275.allSectors review [] = V275.sectorNames review.topSectors := by
    simp [V275.allSectors]
  have hfilter :
      (objectEntries (countsOf (V275.allSectors review []))).filter
        (fun p => decide (2 ≤ p.2)) = [] := by
    rw [List.filter_eq_nil_iff]
    intro p hp
    have hmem := (objectEntries_perm _).mem_iff.mp hp
    obtain ⟨a, k⟩ := p
    have hk := mem_countsOf.mp hmem
    have h1 : (V275.allSectors review []).count a = 1 := by
      rw [hall] at hk ⊢
      exact (List.nodup_iff_count_eq_one.mp h) a hk.1
    simp only [decide_eq_true_eq, not_le]
    have hk2 := hk.2
    omega
  show ((objectEntries (countsOf (V275.allSectors review []))).filter
      (fun p => decide (2 ≤ p.2))).insertionSort (fun p q => q.2 ≤ p.2) = []
  rw [hfilter, List.insertionSort]

-- witness for the amended C2 theorem
theorem persistentSectors_empty_store_witness :
    (V275.sectorNames V275.reviewAI2.topSectors).Nodup ∧
      V275.persistentSectors V275.reviewAI2 [] = [] :=
  ⟨by decide, persistentSectors_empty_store V275.reviewAI2 (by decide)⟩

/-! ## Order of the analyzer output -/

theorem pair_mem_persistentSectors {review : V275.MarketReview}
    {history : List V275.MarketReview} {a : String} {k : ℕ} :
    (a, k) ∈ V275.persistentSectors review history ↔
      a ∈ V275.allSectors review history ∧
        k = (V275.allSectors review history).count a ∧ 2 ≤ k := by
  simp only [V275.persistentSectors]
  rw [List.mem_insertionSort, List.mem_filter]
  constructor
  · rintro ⟨hmem, h2⟩
    have h := mem_countsOf.mp ((objectEntries_perm _).mem_iff.mp hmem)
    exact ⟨h.1, h.2, by simpa using h2⟩
  · rintro ⟨hmem, hk, h2⟩
    exact ⟨(objectEntries_perm _).mem_iff.mpr (mem_countsOf.mpr ⟨hmem, hk⟩),
      by simpa using h2⟩

theorem mem_keys_pair {review : V275.MarketReview}
    {history : List V275.MarketReview} {a : String}
    (h : a ∈ (V275.persistentSectors review history).map Prod.fst) :
    (a, (V275.allSectors review history).count a) ∈
        V275.persistentSectors review history ∧
      a ∈ V275.allSectors review history ∧
      2 ≤ (V275.allSectors review history).count a := by
  obtain ⟨⟨x, k⟩, hm, hx⟩ := List.mem_map.mp h
  have hx' : x = a := hx
  subst hx'
  have h2 := pair_mem_persistentSectors.mp hm
  rw [h2.2.1] at hm
  exact ⟨hm, h2.1, h2.2.1 ▸ h2.2.2⟩

theorem persistentSectors_keys_nodup (review : V275.MarketReview)
    (history : List V275.MarketReview) :
    ((V275.persistentSectors review history).map Prod.fst).Nodup := by
  have h0 := countsOf_keys_nodup (V275.allSectors review history)
  have h1 : ((objectEntries (countsOf (V275.allSectors review history))).map
      Prod.fst).Nodup :=
    ((objectEntries_perm _).map Prod.fst).nodup_iff.mpr h0
  have h2 : (((objectEntries (countsOf (V275.allSectors review history))).filter
      (fun p => decide (2 ≤ p.2))).map Prod.fst).Nodup :=
    ((List.filter_sublist _).map Prod.fst).nodup h1
  simp only [V275.persistentSectors]
  exact ((List.perm_insertionSort _ _).map Prod.fst).nodup_iff.mpr h2

theorem persistentSectors_nodup (review : V275.MarketReview)
    (history : List V275.MarketReview) :
    (V275.persistentSectors review history).Nodup :=
  (persistentSectors_keys_nodup review history).of_map _

/-- If `a` precedes `b` in the implemented tie order and both names appear in
the output with equal counts, then `a`'s pair precedes `b`'s pair in the
output. -/
theorem tie_before_pair_sublist {review : V275.MarketReview}
    {history : List V275.MarketReview} {a b : String}
    (ha : a ∈ (V275.persistentSectors review history).map Prod.fst)
    (hb : b ∈ (V275.persistentSectors review history).map Prod.fst)
    (hcnt : (V275.allSectors review history).count a =
      (V275.allSectors review history).count b)
    (hj : jsTieBefore (V275.allSectors review history) a b) :
    [(a, (V275.allSectors review history).count a),
      (b, (V275.allSectors review history).count b)].Sublist
      (V275.persistentSectors review history) := by
  obtain ⟨hpa, hal, h2a⟩ := mem_keys_pair ha
  obtain ⟨hpb, hbl, h2b⟩ := mem_keys_pair hb
  have hpa' : (a, (V275.allSectors review history).count a) ∈
      countsOf (V275.allSectors review history) := mem_countsOf.mpr ⟨hal, rfl⟩
  have hpb' : (b, (V275.allSectors review history).count b) ∈
      countsOf (V275.allSectors review history) := mem_countsOf.mpr ⟨hbl, rfl⟩
  have hne : a ≠ b := by
    rintro rfl
    by_cases hidx : isArrayIndexKey a <;> simp [jsTieBefore, hidx] at hj
  have key : [(a, (V275.allSectors review history).count a),
      (b, (V275.allSectors review history).count b)].Sublist
      (objectEntries (countsOf (V275.allSectors review history))) := by
    unfold objectEntries
    by_cases hia : isArrayIndexKey a
    · by_cases hib : isArrayIndexKey b
      · have hj' : decimalValue a < decimalValue b := by
          simpa [jsTieBefore, hia, hib] using hj
        have hmemA : (a, (V275.allSectors review history).count a) ∈
            ((countsOf (V275.allSectors review history)).filter
              (fun p => isArrayIndexKey p.1)).insertionSort
              (fun p q => decimalValue p.1 ≤ decimalValue q.1) :=
          (List.mem_insertionSort _).mpr
            (List.mem_filter.mpr ⟨hpa', by simpa using hia⟩)
        have hmemB : (b, (V275.allSectors review history).count b) ∈
            ((countsOf (V275.allSectors review history)).filter
              (fun p => isArrayIndexKey p.1)).insertionSort
              (fun p q => decimalValue p.1 ≤ decimalValue q.1) :=
          (List.mem_insertionSort _).mpr
            (List.mem_filter.mpr ⟨hpb', by simpa using hib⟩)
        have hnep : ((a, (V275.allSectors review history).count a) : String × ℕ) ≠
            (b, (V275.allSectors review history).count b) := by
          simp [hne]
        rcases pair_sublist_total hmemA hmemB hnep with hs | hs
        · exact hs.trans (List.sublist_append_left _ _)
        · exfalso
          have hsorted := List.sorted_insertionSort
            (fun p q : String × ℕ => decimalValue p.1 ≤ decimalValue q.1)
            ((countsOf (V275.allSectors review history)).filter
              (fun p => isArrayIndexKey p.1))
          have hrel := List.pairwise_pair.mp (List.Pairwise.sublist hs hsorted)
          exact absurd hj' (not_lt.mpr hrel)
      · have hmemA : (a, (V275.allSectors review history).count a) ∈
            ((countsOf (V275.allSectors review history)).filter
              (fun p => isArrayIndexKey p.1)).insertionSort
              (fun p q => decimalValue p.1 ≤ decimalValue q.1) :=
          (List.mem_insertionSort _).mpr
            (List.mem_filter.mpr ⟨hpa', by simpa using hia⟩)
        have hmemB : (b, (V275.allSectors review history).count b) ∈
            (countsOf (V275.allSectors review history)).filter
              (fun p => !isArrayIndexKey p.1) :=
          List.mem_filter.mpr ⟨hpb', by simpa using hib⟩
        exact List.Sublist.append (List.singleton_sublist.mpr hmemA)
          (List.singleton_sublist.mpr hmemB)
    · by_cases hib : isArrayIndexKey b
      · exact absurd hj (by simp [jsTieBefore, hia, hib])
      · have hj' : (V275.allSectors review history).indexOf a <
            (V275.allSectors review history).indexOf b := by
          simpa [jsTieBefore, hia, hib] using hj
        have hfo : [a, b].Sublist (firstOccs (V275.allSectors review history)) :=
          pair_sublist_firstOccs hal hbl hne hj'
        have hmap := hfo.map
          (fun n => (n, (V275.allSectors review history).count n))
        rw [← countsOf_eq_map] at hmap
        simp only [List.map_cons, List.map_nil] at hmap
        have hfil := hmap.filter (fun p => !isArrayIndexKey p.1)
        rw [show List.filter (fun p => !isArrayIndexKey p.1)
              [(a, (V275.allSectors review history).count a),
                (b, (V275.allSectors review history).count b)] =
              [(a, (V275.allSectors review history).count a),
                (b, (V275.allSectors review history).count b)] by
            simp [hia, hib]] at hfil
        exact hfil.trans (List.sublist_append_right _ _)
  have hfil2 := key.filter (fun p => decide (2 ≤ p.2))
  rw [show List.filter (fun p => decide (2 ≤ p.2))
        [(a, (V275.allSectors review history).count a),
          (b, (V275.allSectors review history).count b)] =
        [(a, (V275.allSectors review history).count a),
          (b, (V275.allSectors review history).count b)] by
      simp [h2a, h2b]] at hfil2
  have hrel : (fun p q : String × ℕ => q.2 ≤ p.2)
      (a, (V275.allSectors review history).count a)
      (b, (V275.allSectors review history).count b) := le_of_eq hcnt.symm
  show [(a, (V275.allSectors review history).count a),
      (b, (V275.allSectors review history).count b)].Sublist
    (((objectEntries (countsOf (V275.allSectors review history))).filter
        (fun p => decide (2 ≤ p.2))).insertionSort (fun p q => q.2 ≤ p.2))
  exact List.pair_sublist_insertionSort hrel hfil2

/-- C3 counterexample: with current sectors `["AI", "2"]` and one stored
record `["AI", "2"]`, both names have count 2 and `"AI"` first occurs before
`"2"` in the concatenation, yet the output lists `"2"` first: ties follow
JavaScript `Object.entries` enumeration order (array-index keys first), not
first-occurrence order. -/
theorem persistentSectors_tie_order_counterexample :
    V275.persistentSectors V275.reviewAI2 [V275.histAI2] = [("2", 2), ("AI", 2)] ∧
      (V275.allSectors V275.reviewAI2 [V275.histAI2]).indexOf "AI" <
        (V275.allSectors V275.reviewAI2 [V275.histAI2]).indexOf "2" ∧
      (V275.allSectors V275.reviewAI2 [V275.histAI2]).count "AI" =
        (V275.allSectors V275.reviewAI2 [V275.histAI2]).count "2" := by
  refine ⟨by decide, by decide, by decide⟩

/-- C3 (amended): the output is sorted in descending order of count, and
pairs with equal counts appear in `Object.entries` enumeration order of the
count dictionary: names that are canonical array-index strings come first, in
ascending numeric order, before all other names, and the remaining names
appear in the order of each name's first occurrence in the concatenation of
current-record names followed by the historical names (`jsTieBefore`). -/
theorem persistentSectors_sorted_desc_and_tie_order (review : V275.MarketReview)
    (history : List V275.MarketReview) :
    List.Pairwise (fun p q : String × ℕ => q.2 ≤ p.2)
        (V275.persistentSectors review history) ∧
      ∀ a b : String,
        a ∈ (V275.persistentSectors review history).map Prod.fst →
        b ∈ (V275.persistentSectors review history).map Prod.fst →
        (V275.allSectors review history).count a =
          (V275.allSectors review history).count b →
        ([(a, (V275.allSectors review history).count a),
            (b, (V275.allSectors review history).count b)].Sublist
            (V275.persistentSectors review history) ↔
          jsTieBefore (V275.allSectors review history) a b) := by
  constructor
  · exact List.sorted_insertionSort (fun p q : String × ℕ => q.2 ≤ p.2) _
  · intro a b ha hb hcnt
    by_cases hab : a = b
    · subst hab
      apply iff_of_false
      · intro hsub
        have hnd := persistentSectors_nodup review history
        have := List.Nodup.sublist hsub hnd
        simp at this
      · by_cases hidx : isArrayIndexKey a <;> simp [jsTieBefore, hidx]
    · constructor
      · intro hsub
        by_cases hia : isArrayIndexKey a
        · by_cases hib : isArrayIndexKey b
          · simp only [jsTieBefore, hia, hib, if_true]
            rcases Nat.lt_trichotomy (decimalValue a) (decimalValue b) with h | h | h
            · exact h
            · exact absurd (decimalValue_inj hia hib h) hab
            · exfalso
              have hba := tie_before_pair_sublist hb ha hcnt.symm
                (by simp [jsTieBefore, hia, hib, h])
              have hnep : ((a, (V275.allSectors review history).count a) :
                  String × ℕ) ≠ (b, (V275.allSectors review history).count b) := by
                simp [hab]
              exact pair_sublist_antisymm hnep
                (persistentSectors_nodup review history) hsub hba
          · simp [jsTieBefore, hia, hib]
        · by_cases hib : isArrayIndexKey b
          · simp only [jsTieBefore, hia, hib, if_false]
            have hba := tie_before_pair_sublist hb ha hcnt.symm
              (by simp [jsTieBefore, hia, hib])
            have hnep : ((a, (V275.allSectors review history).count a) :
                String × ℕ) ≠ (b, (V275.allSectors review history).count b) := by
              simp [hab]
            simp only [if_true]
            exact pair_sublist_antisymm hnep
              (persistentSectors_nodup review history) hsub hba
          · simp only [jsTieBefore, hia, hib, if_false]
            rcases Nat.lt_trichotomy ((V275.allSectors review history).indexOf a)
              ((V275.allSectors review history).indexOf b) with h | h | h
            · exact h
            · exfalso
              have hal := (mem_keys_pair ha).2.1
              have hbl := (mem_keys_pair hb).2.1
              have ha' := List.indexOf_lt_length.mpr hal
              have hb' := List.indexOf_lt_length.mpr hbl
              have e1 : (V275.allSectors review history)[(V275.allSectors
                  review history).indexOf a]? = some a := by
                rw [List.getElem?_eq_getElem ha',
                  List.getElem_indexOf (a := a) ha']
              have e2 : (V275.allSectors review history)[(V275.allSectors
                  review history).indexOf b]? = some b := by
                rw [List.getElem?_eq_getElem hb',
                  List.getElem_indexOf (a := b) hb']
              rw [h] at e1
              rw [e2] at e1
              exact hab (Option.some_injective _ e1.symm)
            · exfalso
              have hba := tie_before_pair_sublist hb ha hcnt.symm
                (by simp only [jsTieBefore, hia, hib, if_false]; exact h)
              have hnep : ((a, (V275.allSectors review history).count a) :
                  String × ℕ) ≠ (b, (V275.allSectors review history).count b) := by
                simp [hab]
              exact pair_sublist_antisymm hnep
                (persistentSectors_nodup review history) hsub hba
      · intro hj
        exact tie_before_pair_sublist ha hb hcnt hj

-- witness for the amended C3 theorem
theorem persistentSectors_sorted_desc_and_tie_order_witness :
    List.Pairwise (fun p q : String × ℕ => q.2 ≤ p.2)
        (V275.persistentSectors V275.reviewAI2 [V275.histAI2]) ∧
      [("2", 2), ("AI", 2)].Sublist
        (V275.persistentSectors V275.reviewAI2 [V275.histAI2]) := by
  have h := persistentSectors_sorted_desc_and_tie_order V275.reviewAI2 [V275.histAI2]
  refine ⟨h.1, ?_⟩
  have h2 := (h.2 "2" "AI" (by decide) (by decide) (by decide)).mpr (by decide)
  have e2 : (V275.allSectors V275.reviewAI2 [V275.histAI2]).count "2" = 2 := by decide
  have eA : (V275.allSectors V275.reviewAI2 [V275.histAI2]).count "AI" = 2 := by decide
  rw [e2, eA] at h2
  exact h2

/-! ## Claims about the save operation -/

/-- Removing the records of one present date from a store with pairwise
distinct dates removes exactly one record. -/
theorem length_filter_ne_of_mem {d : String} :
    ∀ {hist : List V275.MarketReview},
      (hist.map V275.MarketReview.date).Nodup →
      d ∈ hist.map V275.MarketReview.date →
      (hist.filter (fun x => x.date != d)).length + 1 = hist.length := by
  intro hist
  induction hist with
  | nil => intro _ hmem; simp at hmem
  | cons x t ih =>
    intro hnd hmem
    rw [List.map_cons, List.nodup_cons] at hnd
    rcases List.mem_cons.mp hmem with hd | hd
    · subst hd
      rw [List.filter_cons]
      simp only [bne_self_eq_false, Bool.false_eq_true, if_false]
      have ht : List.filter (fun y => y.date != x.date) t = t := by
        refine List.filter_eq_self.mpr fun y hy => ?_
        rw [bne_iff_ne]
        intro e
        exact hnd.1 (e ▸ List.mem_map_of_mem _ hy)
      rw [ht, List.length_cons]
    · have hxd : x.date ≠ d := fun e => hnd.1 (e ▸ hd)
      rw [List.filter_cons, if_pos (bne_iff_ne.mpr hxd)]
      have := ih hnd.2 hd
      simp only [List.length_cons]
      omega

/-- C4: if the store contains at most one record per date before a save, then
after `handleSave` it still contains at most one record per date; saving a
record whose date already exists replaces the existing record with the new
values and leaves the store size unchanged. -/
theorem handleSave_unique_dates (review : V275.MarketReview)
    (history : List V275.MarketReview)
    (h : (history.map V275.MarketReview.date).Nodup) :
    ((V275.handleSave review history).map V275.MarketReview.date).Nodup ∧
      (review.date ∈ history.map V275.MarketReview.date →
        (V275.handleSave review history).length = history.length) ∧
      review ∈ V275.handleSave review history ∧
      ∀ x ∈ V275.handleSave review history, x.date = review.date → x = review := by
  have hperm : List.Perm (V275.handleSave review history)
      (review :: history.filter (fun x => x.date != review.date)) :=
    List.perm_insertionSort _ _
  have hFsub : (history.filter (fun x => x.date != review.date)).Sublist history :=
    List.filter_sublist _
  refine ⟨?_, ?_, ?_, ?_⟩
  · refine ((hperm.map V275.MarketReview.date).nodup_iff).mpr ?_
    rw [List.map_cons, List.nodup_cons]
    constructor
    · intro hmem
      obtain ⟨x, hx, hdx⟩ := List.mem_map.mp hmem
      have := (List.mem_filter.mp hx).2
      rw [bne_iff_ne] at this
      exact this hdx
    · exact List.Nodup.sublist (hFsub.map _) h
  · intro hmem
    have hlenF := length_filter_ne_of_mem h hmem
    have hlen := hperm.length_eq
    simp only [List.length_cons] at hlen
    omega
  · exact hperm.mem_iff.mpr (List.mem_cons_self _ _)
  · intro x hx hdx
    rcases List.mem_cons.mp (hperm.mem_iff.mp hx) with hx' | hx'
    · exact hx'
    · have := (List.mem_filter.mp hx').2
      rw [bne_iff_ne] at this
      exact absurd hdx this

-- witness for C4: the store holds records for two dates; saving a record
-- dated like the second replaces it and keeps the size at 2
theorem handleSave_unique_dates_witness :
    (([V275.histAI2, V275.reviewDupAI].map V275.MarketReview.date).Nodup) ∧
      ((V275.handleSave V275.reviewAI2 [V275.histAI2, V275.reviewDupAI]).map
        V275.MarketReview.date).Nodup ∧
      (V275.handleSave V275.reviewAI2 [V275.histAI2, V275.reviewDupAI]).length = 2 ∧
      V275.reviewAI2 ∈
        V275.handleSave V275.reviewAI2 [V275.histAI2, V275.reviewDupAI] := by
  have h := handleSave_unique_dates V275.reviewAI2 [V275.histAI2, V275.reviewDupAI]
    (by decide)
  refine ⟨by decide, h.1, ?_, h.2.2.1⟩
  have := h.2.1 (by decide)
  simpa using this

/-- C10: the save operation removes no record other than the one sharing the
working record's date: the records whose date differs from the working
record's date are exactly preserved (as a permutation, hence present and
unchanged), and the working record itself is in the store after save.
Consequently, loading a stored record, editing its date and saving leaves
both the original-dated record and the new-dated record in the store. -/
theorem handleSave_frame (review : V275.MarketReview)
    (history : List V275.MarketReview) :
    List.Perm ((V275.handleSave review history).filter
        (fun x => x.date != review.date))
      (history.filter (fun x => x.date != review.date)) ∧
    review ∈ V275.handleSave review history := by
  have hperm : List.Perm (V275.handleSave review history)
      (review :: history.filter (fun x => x.date != review.date)) :=
    List.perm_insertionSort _ _
  constructor
  · have h1 := hperm.filter (fun x => x.date != review.date)
    have h2 : List.filter (fun x => x.date != review.date)
        (review :: history.filter (fun x => x.date != review.date)) =
        history.filter (fun x => x.date != review.date) := by
      rw [List.filter_cons]
      simp [List.filter_filter]
    rw [h2] at h1
    exact h1
  · exact hperm.mem_iff.mpr (List.mem_cons_self _ _)

/-! ## Claims about the score bound -/

/-- C5 counterexample: starting from the initial working record (score 50,
within bounds), the v28.0 AI auto-fill merge (`{...prev, ...data, …}`) copies
a `score` field present in the parsed response verbatim, producing the
out-of-range score 150. -/
theorem score_bound_autofill_counterexample :
    0 ≤ (V280.INITIAL_REVIEW "2026-01-02").score ∧
      (V280.INITIAL_REVIEW "2026-01-02").score ≤ 100 ∧
      (V280.autoFillMerge (V280.INITIAL_REVIEW "2026-01-02") V280.fill150).score =
        150 ∧
      ¬(V280.autoFillMerge (V280.INITIAL_REVIEW "2026-01-02") V280.fill150).score ≤
        100 := by
  refine ⟨by decide, by decide, by decide, by decide⟩

/-- C5 (amended): the ±5 score adjustment buttons clamp to `[0, 100]`, the
v28.0 score slider writes only the values in `[0, 100]` admitted by its
`min="0" max="100"` range control, saving adds no record beyond the working
record and the previously stored ones, and the v27.5 auto-fill merge never
writes the score; the v28.0 AI auto-fill, however, copies any `score` field
present in the parsed response without clamping (see the counterexample), so
it is excluded from the bound-preserving operations. -/
theorem score_bound_preserved (r : V275.MarketReview) (r' : V280.MarketReview)
    (review : V275.MarketReview) (history : List V275.MarketReview)
    (data : V275.AIFillData) (n : ℕ) (v : ℚ)
    (h0 : 0 ≤ r.score) (h1 : r.score ≤ 100) (hv0 : 0 ≤ v) (hv1 : v ≤ 100) :
    (0 ≤ (V275.scoreMinus5 r).score ∧ (V275.scoreMinus5 r).score ≤ 100) ∧
      (0 ≤ (V275.scorePlus5 r).score ∧ (V275.scorePlus5 r).score ≤ 100) ∧
      (0 ≤ (V280.setScoreSlider r' v).score ∧
        (V280.setScoreSlider r' v).score ≤ 100) ∧
      (V275.autoFillMerge review data n).score = review.score ∧
      (∀ x ∈ V275.handleSave review history, x = review ∨ x ∈ history) := by
  refine ⟨⟨le_max_left 0 _, ?_⟩, ⟨?_, min_le_left 100 _⟩, ⟨hv0, hv1⟩, rfl, ?_⟩
  · exact max_le (by norm_num) (by linarith)
  · exact le_min (by norm_num) (by linarith)
  · intro x hx
    have hperm : List.Perm (V275.handleSave review history)
        (review :: history.filter (fun y => y.date != review.date)) :=
      List.perm_insertionSort _ _
    rcases List.mem_cons.mp (hperm.mem_iff.mp hx) with hx' | hx'
    · exact Or.inl hx'
    · exact Or.inr (List.mem_of_mem_filter hx')

-- witness for the amended C5 theorem
theorem score_bound_preserved_witness :
    (0 ≤ (V275.INITIAL_REVIEW "2026-01-02").score ∧
        (V275.INITIAL_REVIEW "2026-01-02").score ≤ 100 ∧
        (0 : ℚ) ≤ 70 ∧ (70 : ℚ) ≤ 100) ∧
      (0 ≤ (V275.scoreMinus5 (V275.INITIAL_REVIEW "2026-01-02")).score ∧
        (V275.scoreMinus5 (V275.INITIAL_REVIEW "2026-01-02")).score ≤ 100) ∧
      (0 ≤ (V280.setScoreSlider (V280.INITIAL_REVIEW "2026-01-02") 70).score ∧
        (V280.setScoreSlider (V280.INITIAL_REVIEW "2026-01-02") 70).score ≤ 100) ∧
      (V275.autoFillMerge (V275.INITIAL_REVIEW "2026-01-02") V275.emptyFill 0).score =
        (V275.INITIAL_REVIEW "2026-01-02").score := by
  have h := score_bound_preserved (V275.INITIAL_REVIEW "2026-01-02")
    (V280.INITIAL_REVIEW "2026-01-02") (V275.INITIAL_REVIEW "2026-01-02") []
    V275.emptyFill 0 70 (by decide) (by decide) (by decide) (by decide)
  exact ⟨⟨by decide, by decide, by decide, by decide⟩, h.1, h.2.2.1, h.2.2.2.1⟩

/-- C6: for every combination of the classifier's input fields, the score it
outputs is an integer in `[0, 100]` (integrality by construction: the result
is the clamp of a sum of integer adjustments). -/
theorem calculateScore_mem_bounds (trend : SpecModel.Trend) (yesterdayGain : ℚ)
    (nuclearCount limitUpCount limitDownCount : ℤ) (promotionRate : ℚ) :
    0 ≤ SpecModel.calculateScore trend yesterdayGain nuclearCount limitUpCount
        limitDownCount promotionRate ∧
      SpecModel.calculateScore trend yesterdayGain nuclearCount limitUpCount
        limitDownCount promotionRate ≤ 100 := by
  constructor
  · show (0 : ℤ) ≤ min 100 (max 0 _)
    exact le_min (by norm_num) (le_max_left 0 _)
  · show min (100 : ℤ) (max 0 _) ≤ 100
    exact min_le_left _ _

/-! ## Claims about the AI auto-fill merge -/

/-- C7 counterexample: merging the empty parsed response (every field absent)
into a record holding an index below its 5-day moving average flips that
index's `ma5Status` to `above`, because the merge recomputes `ma5Status` from
`data.indices?.[name] ?? 0`; an absent field does not retain its previous
value. -/
theorem autofill_absent_field_counterexample :
    V275.emptyFill.indices = none ∧
      (V275.autoFillMerge V275.reviewBelow V275.emptyFill 0).indices =
        [{ name := "沪", change := -1, ma5Status := V275.Ma5Status.above }] ∧
      (V275.autoFillMerge V275.reviewBelow V275.emptyFill 0).indices ≠
        V275.reviewBelow.indices := by
  refine ⟨rfl, by decide, by decide⟩

/-- C7 (amended): for every parsed response, every record field absent from
the response retains its previous value and every field present overwrites
it, with two exceptions: each index's `ma5Status` is recomputed from the
response's change for that index (treated as `0` when absent, hence
`'above'`), and `aiAnalysis` is unconditionally overwritten with a fixed
success message.  Fields never mentioned by the merge are always retained. -/
theorem autofill_merge_fields (prev : V275.MarketReview)
    (data : V275.AIFillData) (n : ℕ) :
    (data.totalVol = none →
        (V275.autoFillMerge prev data n).totalVol = prev.totalVol) ∧
      (∀ x, data.totalVol = some x → (V275.autoFillMerge prev data n).totalVol = x) ∧
      (data.volDelta = none →
        (V275.autoFillMerge prev data n).volDelta = prev.volDelta) ∧
      (∀ x, data.volDelta = some x → (V275.autoFillMerge prev data n).volDelta = x) ∧
      (data.sentiment.bind (fun s => s.limitUp) = none →
        (V275.autoFillMerge prev data n).limitUpTotal = prev.limitUpTotal) ∧
      (data.sentiment.bind (fun s => s.limitDown) = none →
        (V275.autoFillMerge prev data n).limitDownTotal = prev.limitDownTotal) ∧
      (data.sentiment.bind (fun s => s.brokenRate) = none →
        (V275.autoFillMerge prev data n).brokenRate = prev.brokenRate) ∧
      (data.sectors = none →
        (V275.autoFillMerge prev data n).topSectors = prev.topSectors) ∧
      (data.ladder = none →
        (V275.autoFillMerge prev data n).ladder = prev.ladder) ∧
      (data.dragon = none →
        (V275.autoFillMerge prev data n).dragon = prev.dragon) ∧
      (∀ x, data.dragon = some x → (V275.autoFillMerge prev data n).dragon = x) ∧
      (data.midArmy = none →
        (V275.autoFillMerge prev data n).midArmy = prev.midArmy) ∧
      (∀ x, data.midArmy = some x → (V275.autoFillMerge prev data n).midArmy = x) ∧
      (data.indices = none →
        (V275.autoFillMerge prev data n).indices =
          prev.indices.map (fun idx => { idx with
            ma5Status := V275.Ma5Status.above })) ∧
      (V275.autoFillMerge prev data n).aiAnalysis =
        "【解析成功】基于 " ++ toString n ++ " 个原始信源提炼。已聚焦 1-5B+ 核心梯队。" ∧
      (V275.autoFillMerge prev data n).date = prev.date ∧
      (V275.autoFillMerge prev data n).score = prev.score ∧
      (V275.autoFillMerge prev data n).stage = prev.stage ∧
      (V275.autoFillMerge prev data n).watchlist = prev.watchlist ∧
      (V275.autoFillMerge prev data n).reflection = prev.reflection ∧
      (V275.autoFillMerge prev data n).volMA5 = prev.volMA5 ∧
      (V275.autoFillMerge prev data n).upCount = prev.upCount ∧
      (V275.autoFillMerge prev data n).dnCount = prev.dnCount ∧
      (V275.autoFillMerge prev data n).isMainLine = prev.isMainLine ∧
      (V275.autoFillMerge prev data n).yesterdayGain = prev.yesterdayGain ∧
      (V275.autoFillMerge prev data n).nuclearCount = prev.nuclearCount ∧
      (V275.autoFillMerge prev data n).dragonStatus = prev.dragonStatus ∧
      (V275.autoFillMerge prev data n).sources = prev.sources ∧
      (V275.autoFillMerge prev data n).rawContext = prev.rawContext := by
  refine ⟨?_, ?_, ?_, ?_, ?_, ?_, ?_, ?_, ?_, ?_, ?_, ?_, ?_, ?_, rfl, rfl, rfl,
    rfl, rfl, rfl, rfl, rfl, rfl, rfl, rfl, rfl, rfl, rfl, rfl⟩
  · intro h; simp [V275.autoFillMerge, h]
  · intro x h; simp [V275.autoFillMerge, h]
  · intro h; simp [V275.autoFillMerge, h]
  · intro x h; simp [V275.autoFillMerge, h]
  · intro h; simp [V275.autoFillMerge, h]
  · intro h; simp [V275.autoFillMerge, h]
  · intro h; simp [V275.autoFillMerge, h]
  · intro h; simp [V275.autoFillMerge, h]
  · intro h; simp [V275.autoFillMerge, h]
  · intro h; simp [V275.autoFillMerge, h]
  · intro x h; simp [V275.autoFillMerge, h]
  · intro h; simp [V275.autoFillMerge, h]
  · intro x h; simp [V275.autoFillMerge, h]
  · intro h
    simp [V275.autoFillMerge, h]

-- witness for the amended C7 theorem
theorem autofill_merge_fields_witness :
    V275.emptyFill.totalVol = none ∧
      (V275.autoFillMerge V275.reviewBelow V275.emptyFill 0).totalVol =
        V275.reviewBelow.totalVol ∧
      V275.emptyFill.indices = none ∧
      (V275.autoFillMerge V275.reviewBelow V275.emptyFill 0).indices =
        V275.reviewBelow.indices.map (fun idx => { idx with
          ma5Status := V275.Ma5Status.above }) := by
  have h := autofill_merge_fields V275.reviewBelow V275.emptyFill 0
  exact ⟨rfl, h.1 rfl, rfl,
    h.2.2.2.2.2.2.2.2.2.2.2.2.2.1 rfl⟩

/-! ## Claims about the asynchronous AI operations -/

/-- The loading flag tracks whether an AI call is in flight, and at most one
call is ever pending (v28.0 machine). -/
theorem reachable_invariant : ∀ (s : V280.AppState), V280.Reachable s →
    (s.isLoading = false → s.pending = []) ∧ s.pending.length ≤ 1 := by
  intro s hs
  induction hs with
  | init today loaded => exact ⟨fun _ => rfl, by simp [V280.initialState]⟩
  | next e hr ih =>
    rename_i t
    cases e with
    | clickCallAI =>
      by_cases hl : t.isLoading
      · simpa [V280.step, hl] using ih
      · have hp := ih.1 (by simpa using hl)
        simp [V280.step, hl, hp]
    | clickAnalyze =>
      by_cases hl : t.isLoading
      · simpa [V280.step, hl] using ih
      · have hp := ih.1 (by simpa using hl)
        simp [V280.step, hl, hp]
    | clickAutoFill =>
      by_cases hl : t.isLoading
      · simpa [V280.step, hl] using ih
      · by_cases hc : t.uploadedCount = 0
        · simpa [V280.step, hl, hc] using ih
        · have hp := ih.1 (by simpa using hl)
          simp [V280.step, hl, hc, hp]
    | clickSave => simpa [V280.step] using ih
    | editReview r => simpa [V280.step] using ih
    | addFiles k => simpa [V280.step] using ih
    | removeOneFile => simpa [V280.step] using ih
    | setManager b => simpa [V280.step] using ih
    | finish c =>
      by_cases hmem : c.op ∈ t.pending
      · have hsingle : t.pending = [c.op] := by
          have hlen := ih.2
          cases hp : t.pending with
          | nil => rw [hp] at hmem; simp at hmem
          | cons x u =>
            rw [hp] at hmem hlen
            simp only [List.length_cons] at hlen
            have hu : u = [] := List.length_eq_zero.mp (by omega)
            subst hu
            rcases List.mem_singleton.mp hmem with h
            rw [h]
        have herase : t.pending.erase c.op = [] := by
          rw [hsingle, List.erase_cons_head]
        cases c with
        | callAIOk text => simp [V280.step, hmem, V280.applyCompletion, herase]
        | callAIFail => simp [V280.step, hmem, V280.applyCompletion, herase]
        | analyzeOk text => simp [V280.step, hmem, V280.applyCompletion, herase]
        | analyzeFail => simp [V280.step, hmem, V280.applyCompletion, herase]
        | autoFillOk data => simp [V280.step, hmem, V280.applyCompletion, herase]
        | autoFillFail => simp [V280.step, hmem, V280.applyCompletion, herase]
      · simpa [V280.step, hmem] using ih

/-- C8: in the v28.0 machine, at most one AI call (of `callAI`,
`analyzeSentimentCycle`, `autoFillMarketData`) is in flight in any reachable
state, and triggering any of the three operations while the loading flag is
set is a no-op that changes no state. -/
theorem ai_ops_single_flight_and_noop (s : V280.AppState)
    (hs : V280.Reachable s) :
    s.pending.length ≤ 1 ∧
      ∀ e : V280.Event, e.isAiTrigger → s.isLoading = true →
        V280.step e s = s := by
  refine ⟨(reachable_invariant s hs).2, ?_⟩
  intro e he hl
  cases e with
  | clickCallAI => simp [V280.step, hl]
  | clickAnalyze => simp [V280.step, hl]
  | clickAutoFill => simp [V280.step, hl]
  | clickSave => exact absurd he (by simp [V280.Event.isAiTrigger])
  | editReview r => exact absurd he (by simp [V280.Event.isAiTrigger])
  | addFiles k => exact absurd he (by simp [V280.Event.isAiTrigger])
  | removeOneFile => exact absurd he (by simp [V280.Event.isAiTrigger])
  | setManager b => exact absurd he (by simp [V280.Event.isAiTrigger])
  | finish c => exact absurd he (by simp [V280.Event.isAiTrigger])

-- witness for C8: after dispatching callAI from the initial state, exactly
-- one call is pending and a second trigger is a no-op
theorem ai_ops_single_flight_witness :
    (V280.step V280.Event.clickCallAI
        (V280.initialState "2026-01-02" [])).pending.length ≤ 1 ∧
      V280.step V280.Event.clickAnalyze
          (V280.step V280.Event.clickCallAI (V280.initialState "2026-01-02" [])) =
        V280.step V280.Event.clickCallAI (V280.initialState "2026-01-02" []) := by
  have h := ai_ops_single_flight_and_noop _
    (V280.Reachable.next V280.Event.clickCallAI
      (V280.Reachable.init "2026-01-02" []))
  exact ⟨h.1, h.2 V280.Event.clickAnalyze trivial rfl⟩

/-- C9: resolving an in-flight AI call — success or failure — always ends
with the loading flag cleared and never re-dispatches a call (the pending
list only shrinks by the resolved call), and a failure's entire effect on the
state is a blocking alert (all three v28.0 operations and the v27.5
auto-fill) or the fallback text `"指挥官请求超时。"` written into the analysis
field (v27.5 `callAI`); the record is otherwise unchanged and the UI is
re-enabled for another attempt. -/
theorem ai_failure_terminal :
    (∀ (s : V280.AppState) (c : V280.Completion), c.op ∈ s.pending →
        (V280.step (V280.Event.finish c) s).isLoading = false ∧
          (V280.step (V280.Event.finish c) s).pending = s.pending.erase c.op) ∧
      (∀ s : V280.AppState, V280.Op.callAI ∈ s.pending →
        V280.step (V280.Event.finish V280.Completion.callAIFail) s =
          { s with isLoading := false,
                   pending := s.pending.erase V280.Op.callAI,
                   alerts := s.alerts ++ ["策略生成异常"] }) ∧
      (∀ s : V280.AppState, V280.Op.analyze ∈ s.pending →
        V280.step (V280.Event.finish V280.Completion.analyzeFail) s =
          { s with isLoading := false,
                   pending := s.pending.erase V280.Op.analyze,
                   alerts := s.alerts ++ ["周期研判异常"] }) ∧
      (∀ s : V280.AppState, V280.Op.autoFill ∈ s.pending →
        V280.step (V280.Event.finish V280.Completion.autoFillFail) s =
          { s with isLoading := false,
                   pending := s.pending.erase V280.Op.autoFill,
                   alerts := s.alerts ++ ["自动填充失败"] }) ∧
      (∀ (s : V275.AppState) (c : V275.Completion), c.op ∈ s.pending →
        (V275.step (V275.Event.finish c) s).isLoading = false ∧
          (V275.step (V275.Event.finish c) s).pending = s.pending.erase c.op) ∧
      (∀ s : V275.AppState, V275.Op.callAI ∈ s.pending →
        V275.step (V275.Event.finish V275.Completion.callAIFail) s =
          { s with isLoading := false,
                   pending := s.pending.erase V275.Op.callAI,
                   review := { s.review with aiAnalysis := "指挥官请求超时。" } }) ∧
      (∀ s : V275.AppState, V275.Op.autoFill ∈ s.pending →
        V275.step (V275.Event.finish V275.Completion.autoFillFail) s =
          { s with isLoading := false,
                   pending := s.pending.erase V275.Op.autoFill,
                   alerts := s.alerts ++ ["AI 深度解析异常。"] }) := by
  refine ⟨?_, ?_, ?_, ?_, ?_, ?_, ?_⟩
  · intro s c h
    cases c with
    | callAIOk text =>
      simp only [V280.Completion.op] at h
      simp [V280.step, V280.applyCompletion, V280.Completion.op, h]
    | callAIFail =>
      simp only [V280.Completion.op] at h
      simp [V280.step, V280.applyCompletion, V280.Completion.op, h]
    | analyzeOk text =>
      simp only [V280.Completion.op] at h
      simp [V280.step, V280.applyCompletion, V280.Completion.op, h]
    | analyzeFail =>
      simp only [V280.Completion.op] at h
      simp [V280.step, V280.applyCompletion, V280.Completion.op, h]
    | autoFillOk data =>
      simp only [V280.Completion.op] at h
      simp [V280.step, V280.applyCompletion, V280.Completion.op, h]
    | autoFillFail =>
      simp only [V280.Completion.op] at h
      simp [V280.step, V280.applyCompletion, V280.Completion.op, h]
  · intro s h
    simp [V280.step, V280.applyCompletion, V280.Completion.op, h]
  · intro s h
    simp [V280.step, V280.applyCompletion, V280.Completion.op, h]
  · intro s h
    simp [V280.step, V280.applyCompletion, V280.Completion.op, h]
  · intro s c h
    cases c with
    | callAIOk text =>
      simp only [V275.Completion.op] at h
      simp [V275.step, V275.applyCompletion, V275.Completion.op, h]
    | callAIFail =>
      simp only [V275.Completion.op] at h
      simp [V275.step, V275.applyCompletion, V275.Completion.op, h]
    | autoFillOk data =>
      simp only [V275.Completion.op] at h
      simp [V275.step, V275.applyCompletion, V275.Completion.op, h]
    | autoFillFail =>
      simp only [V275.Completion.op] at h
      simp [V275.step, V275.applyCompletion, V275.Completion.op, h]
  · intro s h
    simp [V275.step, V275.applyCompletion, V275.Completion.op, h]
  · intro s h
    simp [V275.step, V275.applyCompletion, V275.Completion.op, h]

-- witness for C9: after dispatching callAI from the initial v28.0 state, a
-- failing resolution clears the loading flag
theorem ai_failure_terminal_witness :
    V280.Op.callAI ∈ (V280.step V280.Event.clickCallAI
        (V280.initialState "2026-01-02" [])).pending ∧
      (V280.step (V280.Event.finish V280.Completion.callAIFail)
        (V280.step V280.Event.clickCallAI
          (V280.initialState "2026-01-02" []))).isLoading = false := by
  refine ⟨by decide, ?_⟩
  exact (ai_failure_terminal.1 _ V280.Completion.callAIFail (by decide)).1

